import Mathlib

/-!
# Expression back end of the C-subset compiler: bindings, label counter, argument count

A shallow embedding of `src/c_compiler/src/bindings.cpp` (the class
`VariableStackBindings`) and of the expression hierarchy declared in
`src/c_compiler/include/expression.hpp`, with the properties of the
specification stated and proved over the embedding.

Conventions of the embedding.

* `int` members (`stack_counter_`, `expression_stack_`, `stack_position`) are
  mathematical integers (`Int`): signed overflow is undefined behaviour in
  C++, so the methods over `Int` describe the executions in which no `int`
  overflows. Where a property is not stated over the mathematical integers,
  the decrement of `expression_stack_` is taken at the width of `int`
  (`nextExpressionStackPositionWrapped`).
* `unsigned` (the label counter, the argument count) is a natural number below
  `2 ^ 32`, and its increment wraps modulo `2 ^ 32`.
* `TypePtr` (`std::shared_ptr<Type>`, declared in `type.hpp`) is a type
  parameter: the code only stores it.
* `std::string` is `String`, compared by value.
-/

/-! ## The associative container behind `bindings_` -/

/-- The struct `DeclarationData` that `insertBinding` fills in: the two members
it assigns, `type` and `stack_position`. -/
structure DeclarationData (TypePtr : Type) where
  type : TypePtr
  stack_position : Int
deriving DecidableEq, Repr

/-- Modelled from the spec: the declaration of the member `bindings_` is in
`bindings.hpp`, which is not among the sources; the specification calls it a
"mapping from name to (type, offset)", and `bindings.cpp` uses it through
`insert(std::pair<std::string, DeclarationData>)`, `find`, `end` and
`(*it).second`, the interface of `std::map<std::string, DeclarationData>`.
The map is the list of its entries, one per key, in insertion order (the order
is not observable: the code never iterates). -/
abbrev StdMap (TypePtr : Type) := List (String × DeclarationData TypePtr)

namespace StdMap

variable {TypePtr : Type}

/-- The call `std::map::find`: the entry whose key equals `id`, or `none` for
the past-the-end iterator `end()`. -/
def find : StdMap TypePtr → String → Option (String × DeclarationData TypePtr)
  | [], _ => none
  | kv :: rest, id => if kv.1 = id then some kv else find rest id

/-- The call `std::map::insert(value_type)`: the pair is added only when the
container holds no element with an equivalent key; otherwise the container is
left as it is (the existing element is not assigned to; `insert` replaces an
element in no standard associative container). -/
def insert (m : StdMap TypePtr) (kv : String × DeclarationData TypePtr) : StdMap TypePtr :=
  match find m kv.1 with
  | some _ => m
  | none => m ++ [kv]

end StdMap

/-! ## `VariableStackBindings` -/

/-- The data members of the class `VariableStackBindings`. -/
structure VariableStackBindings (TypePtr : Type) where
  bindings_ : StdMap TypePtr
  stack_counter_ : Int
  expression_stack_ : Int
deriving DecidableEq, Repr

namespace VariableStackBindings

variable {TypePtr : Type}

/-- The constructor `VariableStackBindings::VariableStackBindings()`:
`stack_counter_(4), expression_stack_(-4)`, the map default-constructed. -/
def new : VariableStackBindings TypePtr :=
  { bindings_ := [], stack_counter_ := 4, expression_stack_ := -4 }

/-- The method `insertBinding(id, type, stack_position)`. -/
def insertBinding (self : VariableStackBindings TypePtr) (id : String) (type : TypePtr)
    (stack_position : Int) : VariableStackBindings TypePtr :=
  let decl_data : DeclarationData TypePtr := { type := type, stack_position := stack_position }
  { self with bindings_ := StdMap.insert self.bindings_ (id, decl_data) }

/-- The method `increaseStackPosition()`: `stack_counter_ += 4`. -/
def increaseStackPosition (self : VariableStackBindings TypePtr) : VariableStackBindings TypePtr :=
  { self with stack_counter_ := self.stack_counter_ + 4 }

/-- The method `resetExpressionStack()`: `expression_stack_ = -4`. -/
def resetExpressionStack (self : VariableStackBindings TypePtr) : VariableStackBindings TypePtr :=
  { self with expression_stack_ := -4 }

/-- The method `nextExpressionStackPosition()`: `expression_stack_ -= 4`. -/
def nextExpressionStackPosition (self : VariableStackBindings TypePtr) :
    VariableStackBindings TypePtr :=
  { self with expression_stack_ := self.expression_stack_ - 4 }

/-- The method `currentStackPosition()`. -/
def currentStackPosition (self : VariableStackBindings TypePtr) : Int :=
  self.stack_counter_

/-- The method `stackPosition(id)`: the `stack_position` of the entry found,
`0` when `find` returns `end()`. -/
def stackPosition (self : VariableStackBindings TypePtr) (id : String) : Int :=
  match StdMap.find self.bindings_ id with
  | some binding => binding.2.stack_position
  | none => 0

/-- The method `currentExpressionStackPosition()`. -/
def currentExpressionStackPosition (self : VariableStackBindings TypePtr) : Int :=
  self.expression_stack_

/-- The method `bindingExists(id)`: `false` when `find` returns `end()`. -/
def bindingExists (self : VariableStackBindings TypePtr) (id : String) : Bool :=
  match StdMap.find self.bindings_ id with
  | none => false
  | some _ => true

end VariableStackBindings

/-! ## Sequences of mutating calls -/

/-- One call of a mutating method of `VariableStackBindings`, with its
arguments. -/
inductive BindingsOp (TypePtr : Type) where
  | insertBinding (id : String) (type : TypePtr) (stack_position : Int)
  | increaseStackPosition
  | resetExpressionStack
  | nextExpressionStackPosition
deriving DecidableEq, Repr

namespace BindingsOp

variable {TypePtr : Type}

/-- Performs one call on an environment. -/
def apply (self : VariableStackBindings TypePtr) : BindingsOp TypePtr → VariableStackBindings TypePtr
  | insertBinding id type stack_position => self.insertBinding id type stack_position
  | increaseStackPosition => self.increaseStackPosition
  | resetExpressionStack => self.resetExpressionStack
  | nextExpressionStackPosition => self.nextExpressionStackPosition

/-- Performs the calls of a sequence, first to last. -/
def run (self : VariableStackBindings TypePtr) (ops : List (BindingsOp TypePtr)) :
    VariableStackBindings TypePtr :=
  ops.foldl apply self

/-- Whether the call is an `insertBinding` whose `id` is `n`. -/
def insertsName (n : String) : BindingsOp TypePtr → Bool
  | insertBinding id _ _ => decide (id = n)
  | _ => false

/-- Whether the call is `increaseStackPosition`. -/
def isIncrease : BindingsOp TypePtr → Bool
  | increaseStackPosition => true
  | _ => false

end BindingsOp

/-! ## The temporary counter at the width of `int` -/

/-- The least value of the 32-bit `int`. -/
def INT_MIN : Int := -2147483648

/-- The greatest value of the 32-bit `int`. -/
def INT_MAX : Int := 2147483647

/-- The value of `int` that the machine keeps of an integer result: the one
congruent to it modulo `2 ^ 32` (two's complement). A result within
`INT_MIN .. INT_MAX` is kept as it is. -/
def wrapInt (x : Int) : Int := (x - INT_MIN) % 4294967296 + INT_MIN

/-- The method `nextExpressionStackPosition()` at the width of `int`:
`expression_stack_ -= 4`, where a difference below `INT_MIN` (undefined
behaviour in C++) is the wrapped value that the compiled program holds. -/
def VariableStackBindings.nextExpressionStackPositionWrapped {TypePtr : Type}
    (self : VariableStackBindings TypePtr) : VariableStackBindings TypePtr :=
  { self with expression_stack_ := wrapInt (self.expression_stack_ - 4) }

/-- Calls `nextExpressionStackPosition()` `k` times, at the width of `int`. -/
def nextExpressionStackPositionTimes {TypePtr : Type} :
    Nat → VariableStackBindings TypePtr → VariableStackBindings TypePtr
  | 0, e => e
  | k + 1, e => nextExpressionStackPositionTimes k e.nextExpressionStackPositionWrapped

/-! ## The expression hierarchy of `expression.hpp` -/

/-- The number of values of `unsigned`, the type of the label counter that
`printAsm` takes by reference: `2 ^ 32`. -/
def unsignedModulus : Nat := 2 ^ 32

mutual
/-- An object of a class derived from `Expression`: the part the derived class
declares, and the member `next_expression_` of the base class. -/
inductive Expression (TypePtr : Type) where
  | mk (derived : ExpressionKind TypePtr) (next_expression_ : ExpressionPtr TypePtr)
/-- An `ExpressionPtr` that may be null: `next_expression_`, and the argument
list of a call, whose default is `nullptr`. -/
inductive ExpressionPtr (TypePtr : Type) where
  | nullptr
  | ptr (e : Expression TypePtr)
/-- The concrete classes of `expression.hpp` with the data members each
declares (those of `OperationExpression` included). The operands that the
constructors take are owned subtrees, never null in a tree the parser hands
over. -/
inductive ExpressionKind (TypePtr : Type) where
  | PostfixExpression
  | PostfixArrayElement
  | PostfixFunctionCall (postfix_expression_ : Expression TypePtr)
      (argument_expression_list_ : ExpressionPtr TypePtr)
  | UnaryExpression
  | CastExpression (type_ : TypePtr) (expression_ : Expression TypePtr)
  | AdditiveExpression (lhs_ : Expression TypePtr) (operator_ : String)
      (rhs_ : Expression TypePtr)
  | MultiplicativeExpression (lhs_ : Expression TypePtr) (operator_ : String)
      (rhs_ : Expression TypePtr)
  | ShiftExpression (lhs_ rhs_ : Expression TypePtr)
  | RelationalExpression (lhs_ rhs_ : Expression TypePtr)
  | EqualityExpression (lhs_ : Expression TypePtr) (operator_ : String)
      (rhs_ : Expression TypePtr)
  | AndExpression (lhs_ rhs_ : Expression TypePtr)
  | ExclusiveOrExpression (lhs_ rhs_ : Expression TypePtr)
  | InclusiveOrExpression (lhs_ rhs_ : Expression TypePtr)
  | LogicalAndExpression (lhs_ rhs_ : Expression TypePtr)
  | LogicalOrExpression (lhs_ rhs_ : Expression TypePtr)
  | ConditionalExpression (logical_or_ expression_ conditional_expression_ : Expression TypePtr)
  | AssignmentExpression (lhs_ rhs_ : Expression TypePtr)
  | Identifier (id_ : String)
  | Constant (constant_ : Int)
end

/-- What a call of `printAsm` leaves behind: the environment it returns, the
value of the reference parameter `label_count` on return, and the labels the
call has given to branch-introducing constructs, in the order they were
allocated. -/
structure PrintAsmResult (TypePtr : Type) where
  bindings : VariableStackBindings TypePtr
  label_count : Nat
  labels : List Nat

mutual
/-- Modelled from the spec: the bodies of `printAsm` are in `expression.cpp`,
which is not among the sources; this is the virtual call, dispatched on the
class of the object. -/
def Expression.printAsm {TypePtr : Type} :
    Expression TypePtr → VariableStackBindings TypePtr → Nat → PrintAsmResult TypePtr
  | .mk derived _, bindings, label_count => derived.printAsm bindings label_count
/-- Modelled from the spec: the bodies of `printAsm` are in `expression.cpp`,
which is not among the sources. The model keeps what the specification fixes
about the label counter and leaves the instruction text out.

* The recursion is depth first and left to right; every operand receives the
  caller's environment snapshot, and the caller returns its own snapshot.
* A binary operator code-generates `lhs_`, then `rhs_`.
* Logical AND and OR code-generate `lhs_`, then capture the current counter as
  their label and advance the counter by one, then code-generate `rhs_`.
* The conditional code-generates the condition, captures the current counter
  for its labels and advances it by one, then code-generates both branches.
* The assignment goes through `lhs_`, then `rhs_`. The specification resolves
  `lhs_` through the address-of path, which only identifiers and element
  accesses have; these hold no operand, so in the trees it admits the counter
  passes `lhs_` unchanged, as it does here.
* The call goes through the callee subtree, then through its arguments in
  declared order.
* The cast code-generates its operand; the other classes have no operand.

The increment of the `unsigned` counter wraps at `unsignedModulus`. -/
def ExpressionKind.printAsm {TypePtr : Type} :
    ExpressionKind TypePtr → VariableStackBindings TypePtr → Nat → PrintAsmResult TypePtr
  | .PostfixExpression, bindings, label_count => ⟨bindings, label_count, []⟩
  | .PostfixArrayElement, bindings, label_count => ⟨bindings, label_count, []⟩
  | .PostfixFunctionCall postfix_expression_ argument_expression_list_, bindings, label_count =>
    let f := postfix_expression_.printAsm bindings label_count
    let a := argument_expression_list_.printAsmArguments bindings f.label_count
    ⟨bindings, a.label_count, f.labels ++ a.labels⟩
  | .UnaryExpression, bindings, label_count => ⟨bindings, label_count, []⟩
  | .CastExpression _ expression_, bindings, label_count =>
    let r := expression_.printAsm bindings label_count
    ⟨bindings, r.label_count, r.labels⟩
  | .AdditiveExpression lhs_ _ rhs_, bindings, label_count =>
    let l := lhs_.printAsm bindings label_count
    let r := rhs_.printAsm bindings l.label_count
    ⟨bindings, r.label_count, l.labels ++ r.labels⟩
  | .MultiplicativeExpression lhs_ _ rhs_, bindings, label_count =>
    let l := lhs_.printAsm bindings label_count
    let r := rhs_.printAsm bindings l.label_count
    ⟨bindings, r.label_count, l.labels ++ r.labels⟩
  | .ShiftExpression lhs_ rhs_, bindings, label_count =>
    let l := lhs_.printAsm bindings label_count
    let r := rhs_.printAsm bindings l.label_count
    ⟨bindings, r.label_count, l.labels ++ r.labels⟩
  | .RelationalExpression lhs_ rhs_, bindings, label_count =>
    let l := lhs_.printAsm bindings label_count
    let r := rhs_.printAsm bindings l.label_count
    ⟨bindings, r.label_count, l.labels ++ r.labels⟩
  | .EqualityExpression lhs_ _ rhs_, bindings, label_count =>
    let l := lhs_.printAsm bindings label_count
    let r := rhs_.printAsm bindings l.label_count
    ⟨bindings, r.label_count, l.labels ++ r.labels⟩
  | .AndExpression lhs_ rhs_, bindings, label_count =>
    let l := lhs_.printAsm bindings label_count
    let r := rhs_.printAsm bindings l.label_count
    ⟨bindings, r.label_count, l.labels ++ r.labels⟩
  | .ExclusiveOrExpression lhs_ rhs_, bindings, label_count =>
    let l := lhs_.printAsm bindings label_count
    let r := rhs_.printAsm bindings l.label_count
    ⟨bindings, r.label_count, l.labels ++ r.labels⟩
  | .InclusiveOrExpression lhs_ rhs_, bindings, label_count =>
    let l := lhs_.printAsm bindings label_count
    let r := rhs_.printAsm bindings l.label_count
    ⟨bindings, r.label_count, l.labels ++ r.labels⟩
  | .LogicalAndExpression lhs_ rhs_, bindings, label_count =>
    let l := lhs_.printAsm bindings label_count
    let label := l.label_count
    let r := rhs_.printAsm bindings ((label + 1) % unsignedModulus)
    ⟨bindings, r.label_count, l.labels ++ label :: r.labels⟩
  | .LogicalOrExpression lhs_ rhs_, bindings, label_count =>
    let l := lhs_.printAsm bindings label_count
    let label := l.label_count
    let r := rhs_.printAsm bindings ((label + 1) % unsignedModulus)
    ⟨bindings, r.label_count, l.labels ++ label :: r.labels⟩
  | .ConditionalExpression logical_or_ expression_ conditional_expression_, bindings,
      label_count =>
    let c := logical_or_.printAsm bindings label_count
    let label := c.label_count
    let t := expression_.printAsm bindings ((label + 1) % unsignedModulus)
    let f := conditional_expression_.printAsm bindings t.label_count
    ⟨bindings, f.label_count, c.labels ++ label :: (t.labels ++ f.labels)⟩
  | .AssignmentExpression lhs_ rhs_, bindings, label_count =>
    let l := lhs_.printAsm bindings label_count
    let r := rhs_.printAsm bindings l.label_count
    ⟨bindings, r.label_count, l.labels ++ r.labels⟩
  | .Identifier _, bindings, label_count => ⟨bindings, label_count, []⟩
  | .Constant _, bindings, label_count => ⟨bindings, label_count, []⟩
/-- Modelled from the spec: the loop of the call over its argument list (the
body is in `expression.cpp`, not among the sources): each argument is
code-generated, then the one its `next_expression_` links to, until the link
is null. -/
def ExpressionPtr.printAsmArguments {TypePtr : Type} :
    ExpressionPtr TypePtr → VariableStackBindings TypePtr → Nat → PrintAsmResult TypePtr
  | .nullptr, bindings, label_count => ⟨bindings, label_count, []⟩
  | .ptr (.mk derived next_expression_), bindings, label_count =>
    let a := derived.printAsm bindings label_count
    let rest := next_expression_.printAsmArguments bindings a.label_count
    ⟨bindings, rest.label_count, a.labels ++ rest.labels⟩
end

mutual
/-- The number of branch-introducing constructs (logical AND, logical OR,
conditional) that the tree of the expression contains: the expression itself,
its operands and the arguments of its calls, at any depth. The link
`next_expression_` of the expression leads to a sibling, not into its tree. -/
def Expression.branchConstructs {TypePtr : Type} : Expression TypePtr → Nat
  | .mk derived _ => derived.branchConstructs
/-- The count for an object of each class: the constructs of all its operands
(of a call the callee and the arguments), and one more for a logical AND, a
logical OR or a conditional. -/
def ExpressionKind.branchConstructs {TypePtr : Type} : ExpressionKind TypePtr → Nat
  | .PostfixExpression => 0
  | .PostfixArrayElement => 0
  | .PostfixFunctionCall postfix_expression_ argument_expression_list_ =>
    postfix_expression_.branchConstructs + argument_expression_list_.branchConstructs
  | .UnaryExpression => 0
  | .CastExpression _ expression_ => expression_.branchConstructs
  | .AdditiveExpression lhs_ _ rhs_ => lhs_.branchConstructs + rhs_.branchConstructs
  | .MultiplicativeExpression lhs_ _ rhs_ => lhs_.branchConstructs + rhs_.branchConstructs
  | .ShiftExpression lhs_ rhs_ => lhs_.branchConstructs + rhs_.branchConstructs
  | .RelationalExpression lhs_ rhs_ => lhs_.branchConstructs + rhs_.branchConstructs
  | .EqualityExpression lhs_ _ rhs_ => lhs_.branchConstructs + rhs_.branchConstructs
  | .AndExpression lhs_ rhs_ => lhs_.branchConstructs + rhs_.branchConstructs
  | .ExclusiveOrExpression lhs_ rhs_ => lhs_.branchConstructs + rhs_.branchConstructs
  | .InclusiveOrExpression lhs_ rhs_ => lhs_.branchConstructs + rhs_.branchConstructs
  | .LogicalAndExpression lhs_ rhs_ => lhs_.branchConstructs + 1 + rhs_.branchConstructs
  | .LogicalOrExpression lhs_ rhs_ => lhs_.branchConstructs + 1 + rhs_.branchConstructs
  | .ConditionalExpression logical_or_ expression_ conditional_expression_ =>
    logical_or_.branchConstructs + 1 +
      (expression_.branchConstructs + conditional_expression_.branchConstructs)
  | .AssignmentExpression lhs_ rhs_ => lhs_.branchConstructs + rhs_.branchConstructs
  | .Identifier _ => 0
  | .Constant _ => 0
/-- The count for an argument list: the sum over the arguments linked through
`next_expression_`. -/
def ExpressionPtr.branchConstructs {TypePtr : Type} : ExpressionPtr TypePtr → Nat
  | .nullptr => 0
  | .ptr (.mk derived next_expression_) =>
    derived.branchConstructs + next_expression_.branchConstructs
end

/-- The `n` consecutive values an `unsigned` counter takes from `c` on. -/
def labelsFrom (c n : Nat) : List Nat :=
  (List.range n).map (fun i => (c + i) % unsignedModulus)

/-- What a pass does to the counter, stated for a result: it ends at the
initial value advanced `n` times, and the labels given out are the `n` values
passed through. -/
def PassFrom {TypePtr : Type} (r : PrintAsmResult TypePtr) (c n : Nat) : Prop :=
  r.label_count = (c + n) % unsignedModulus ∧ r.labels = labelsFrom c n

/-! ## Argument lists -/

/-- Modelled from the spec: the body of `Expression::nextExpression()` is in
`expression.cpp`, which is not among the sources; by the node linkage of the
specification it gives the next sibling of the object, the member
`next_expression_`. -/
def Expression.nextExpression {TypePtr : Type} : Expression TypePtr → ExpressionPtr TypePtr
  | .mk _ next_expression_ => next_expression_

/-- Modelled from the spec: the body of `Expression::linkExpression` is in
`expression.cpp`, which is not among the sources; by the node linkage of the
specification it makes `next_expression` the next sibling of the object. -/
def Expression.linkExpression {TypePtr : Type} :
    Expression TypePtr → ExpressionPtr TypePtr → Expression TypePtr
  | .mk derived _, next_expression => .mk derived next_expression

/-- The argument list made of the given expressions in declared order: each is
linked by `linkExpression` to the chain of those after it, the last to
`nullptr`. -/
def linkArguments {TypePtr : Type} : List (Expression TypePtr) → ExpressionPtr TypePtr
  | [] => .nullptr
  | argument :: rest => .ptr (argument.linkExpression (linkArguments rest))

/-- Modelled from the spec: the walk of `PostfixFunctionCall::countArguments`
over the argument sequence (the body is in `expression.cpp`, not among the
sources): one is added to the `unsigned` count for the current argument,
whatever its class, and the walk goes on at the argument that `nextExpression()`
gives, until that is null. The increment wraps at `unsignedModulus`. -/
def countArgumentsFrom {TypePtr : Type} : ExpressionPtr TypePtr → Nat → Nat
  | .nullptr, argument_count => argument_count
  | .ptr (.mk _ next_expression_), argument_count =>
    countArgumentsFrom next_expression_ ((argument_count + 1) % unsignedModulus)

/-- Modelled from the spec: `PostfixFunctionCall::countArguments`, whose body
is in `expression.cpp`, not among the sources, for the call with the given
members: the count computed is that of the arguments of this call, counted
from zero along `argument_expression_list_`; the arguments of a nested call
are not on that chain. The result is the value left in `argument_count`. -/
def PostfixFunctionCall.countArguments {TypePtr : Type} (_postfix_expression_ : Expression TypePtr)
    (argument_expression_list_ : ExpressionPtr TypePtr) : Nat :=
  countArgumentsFrom argument_expression_list_ 0

/-! ## Lemmas on the container -/

namespace StdMap

variable {TypePtr : Type}

theorem find_append_singleton (m : StdMap TypePtr) (kv : String × DeclarationData TypePtr)
    (id : String) :
    find (m ++ [kv]) id =
      match find m id with
      | some x => some x
      | none => if kv.1 = id then some kv else none := by
  induction m with
  | nil => simp [find]
  | cons hd tl ih =>
    by_cases hk : hd.1 = id
    · simp [find, hk]
    · simp [find, hk, ih]

/-- Looking up the key just inserted: the entry already there if there was
one, else the new pair. -/
theorem find_insert_self (m : StdMap TypePtr) (kv : String × DeclarationData TypePtr) :
    find (insert m kv) kv.1 =
      match find m kv.1 with
      | some x => some x
      | none => some kv := by
  unfold insert
  cases h : find m kv.1 with
  | some x => simp [h]
  | none => simp [find_append_singleton, h]

/-- Looking up another key is not affected by an insertion. -/
theorem find_insert_other (m : StdMap TypePtr) (kv : String × DeclarationData TypePtr)
    (id : String) (hne : kv.1 ≠ id) : find (insert m kv) id = find m id := by
  unfold insert
  cases h : find m kv.1 with
  | some x => simp
  | none =>
    simp only [find_append_singleton, if_neg hne]
    cases find m id <;> rfl

end StdMap

/-! ## Lemmas on `VariableStackBindings` -/

namespace VariableStackBindings

variable {TypePtr : Type}

theorem bindingExists_eq_isSome (e : VariableStackBindings TypePtr) (n : String) :
    e.bindingExists n = (StdMap.find e.bindings_ n).isSome := by
  unfold bindingExists
  cases StdMap.find e.bindings_ n <;> rfl

theorem find_eq_none_of_not_bound (e : VariableStackBindings TypePtr) (n : String)
    (h : e.bindingExists n = false) : StdMap.find e.bindings_ n = none := by
  rw [bindingExists_eq_isSome] at h
  cases hf : StdMap.find e.bindings_ n with
  | none => rfl
  | some x => simp [hf] at h

/-- An `insertBinding` for a name that is bound changes nothing. -/
theorem insertBinding_of_bound (e : VariableStackBindings TypePtr) (n : String) (t : TypePtr)
    (p : Int) (h : e.bindingExists n = true) : e.insertBinding n t p = e := by
  rw [bindingExists_eq_isSome] at h
  cases hf : StdMap.find e.bindings_ n with
  | none => simp [hf] at h
  | some x => simp [insertBinding, StdMap.insert, hf]

theorem stackPosition_insertBinding_self (e : VariableStackBindings TypePtr) (n : String)
    (t : TypePtr) (p : Int) :
    (e.insertBinding n t p).stackPosition n =
      if e.bindingExists n = true then e.stackPosition n else p := by
  have h := StdMap.find_insert_self e.bindings_ (n, { type := t, stack_position := p })
  simp only [stackPosition, bindingExists, insertBinding] at *
  rw [h]
  cases StdMap.find e.bindings_ n <;> simp

theorem bindingExists_insertBinding_self (e : VariableStackBindings TypePtr) (n : String)
    (t : TypePtr) (p : Int) : (e.insertBinding n t p).bindingExists n = true := by
  have h := StdMap.find_insert_self e.bindings_ (n, { type := t, stack_position := p })
  simp only [bindingExists, insertBinding] at *
  rw [h]
  cases StdMap.find e.bindings_ n <;> simp

theorem find_insertBinding_other (e : VariableStackBindings TypePtr) (n m : String)
    (t : TypePtr) (p : Int) (hne : n ≠ m) :
    StdMap.find (e.insertBinding n t p).bindings_ m = StdMap.find e.bindings_ m :=
  StdMap.find_insert_other e.bindings_ (n, { type := t, stack_position := p }) m hne

end VariableStackBindings

namespace BindingsOp

variable {TypePtr : Type}

theorem run_append (e : VariableStackBindings TypePtr) (xs ys : List (BindingsOp TypePtr)) :
    run e (xs ++ ys) = run (run e xs) ys := by
  simp [run, List.foldl_append]

/-- One call leaves a name bound exactly when it was bound or the call inserts it. -/
theorem bindingExists_apply (e : VariableStackBindings TypePtr) (op : BindingsOp TypePtr)
    (n : String) :
    (apply e op).bindingExists n = (e.bindingExists n || insertsName n op) := by
  cases op with
  | insertBinding id t p =>
    by_cases hid : id = n
    · subst hid
      simp [apply, insertsName, VariableStackBindings.bindingExists_insertBinding_self]
    · simp [apply, insertsName, hid, VariableStackBindings.bindingExists_eq_isSome,
        VariableStackBindings.find_insertBinding_other e id n t p hid]
  | increaseStackPosition =>
    simp [apply, insertsName, VariableStackBindings.bindingExists,
      VariableStackBindings.increaseStackPosition]
  | resetExpressionStack =>
    simp [apply, insertsName, VariableStackBindings.bindingExists,
      VariableStackBindings.resetExpressionStack]
  | nextExpressionStackPosition =>
    simp [apply, insertsName, VariableStackBindings.bindingExists,
      VariableStackBindings.nextExpressionStackPosition]

theorem bindingExists_run (e : VariableStackBindings TypePtr) (ops : List (BindingsOp TypePtr))
    (n : String) :
    (run e ops).bindingExists n = (e.bindingExists n || ops.any (insertsName n)) := by
  induction ops generalizing e with
  | nil => simp [run]
  | cons op rest ih =>
    have h := ih (apply e op)
    simp only [run, List.foldl_cons] at h ⊢
    rw [h, bindingExists_apply, List.any_cons, Bool.or_assoc]

theorem currentStackPosition_apply (e : VariableStackBindings TypePtr) (op : BindingsOp TypePtr) :
    (apply e op).currentStackPosition =
      e.currentStackPosition + (if isIncrease op = true then 4 else 0) := by
  cases op <;>
    simp [apply, isIncrease, VariableStackBindings.currentStackPosition,
      VariableStackBindings.insertBinding, VariableStackBindings.increaseStackPosition,
      VariableStackBindings.resetExpressionStack,
      VariableStackBindings.nextExpressionStackPosition]

theorem currentStackPosition_run (e : VariableStackBindings TypePtr)
    (ops : List (BindingsOp TypePtr)) :
    (run e ops).currentStackPosition = e.currentStackPosition + 4 * (ops.countP isIncrease) := by
  induction ops generalizing e with
  | nil => simp [run]
  | cons op rest ih =>
    have h := ih (apply e op)
    simp only [run, List.foldl_cons] at h ⊢
    rw [h, currentStackPosition_apply, List.countP_cons]
    split <;> simp_all
    ring

theorem expressionStack_apply (e : VariableStackBindings TypePtr) (op : BindingsOp TypePtr)
    (h : e.currentExpressionStackPosition ≤ -4 ∧ (4 : Int) ∣ e.currentExpressionStackPosition) :
    (apply e op).currentExpressionStackPosition ≤ -4 ∧
      (4 : Int) ∣ (apply e op).currentExpressionStackPosition := by
  obtain ⟨hle, hdvd⟩ := h
  cases op with
  | insertBinding id t p =>
    exact ⟨hle, hdvd⟩
  | increaseStackPosition => exact ⟨hle, hdvd⟩
  | resetExpressionStack =>
    simp only [apply, VariableStackBindings.resetExpressionStack,
      VariableStackBindings.currentExpressionStackPosition]
    exact ⟨le_refl _, ⟨-1, by norm_num⟩⟩
  | nextExpressionStackPosition =>
    simp only [apply, VariableStackBindings.nextExpressionStackPosition,
      VariableStackBindings.currentExpressionStackPosition] at *
    exact ⟨by omega, by omega⟩

theorem expressionStack_run (e : VariableStackBindings TypePtr) (ops : List (BindingsOp TypePtr))
    (h : e.currentExpressionStackPosition ≤ -4 ∧ (4 : Int) ∣ e.currentExpressionStackPosition) :
    (run e ops).currentExpressionStackPosition ≤ -4 ∧
      (4 : Int) ∣ (run e ops).currentExpressionStackPosition := by
  induction ops generalizing e with
  | nil => simpa [run] using h
  | cons op rest ih =>
    have h2 := ih (apply e op) (expressionStack_apply e op h)
    simpa [run] using h2

end BindingsOp

theorem wrapInt_of_inRange (x : Int) (h1 : INT_MIN ≤ x) (h2 : x ≤ INT_MAX) : wrapInt x = x := by
  unfold wrapInt
  unfold INT_MIN INT_MAX at *
  omega

theorem wrapInt_sub_wrapInt (x y : Int) : wrapInt (wrapInt x - y) = wrapInt (x - y) := by
  unfold wrapInt INT_MIN
  omega

/-- The wrapped decrement is the exact one as long as the difference is a value
of `int`. -/
theorem nextExpressionStackPositionWrapped_exact {TypePtr : Type}
    (e : VariableStackBindings TypePtr) (h1 : INT_MIN ≤ e.expression_stack_ - 4)
    (h2 : e.expression_stack_ - 4 ≤ INT_MAX) :
    e.nextExpressionStackPositionWrapped = e.nextExpressionStackPosition := by
  simp [VariableStackBindings.nextExpressionStackPositionWrapped,
    VariableStackBindings.nextExpressionStackPosition, wrapInt_of_inRange _ h1 h2]

/-- After `k` calls the counter holds the wrapped value of the initial one less
`4 * k`. -/
theorem currentExpressionStackPosition_times {TypePtr : Type} (k : Nat)
    (e : VariableStackBindings TypePtr)
    (h : wrapInt e.currentExpressionStackPosition = e.currentExpressionStackPosition) :
    (nextExpressionStackPositionTimes k e).currentExpressionStackPosition =
      wrapInt (e.currentExpressionStackPosition - 4 * k) := by
  induction k generalizing e with
  | zero => simpa [nextExpressionStackPositionTimes] using h.symm
  | succ k ih =>
    have hstep : wrapInt e.nextExpressionStackPositionWrapped.currentExpressionStackPosition =
        e.nextExpressionStackPositionWrapped.currentExpressionStackPosition := by
      simp only [VariableStackBindings.nextExpressionStackPositionWrapped,
        VariableStackBindings.currentExpressionStackPosition]
      unfold wrapInt INT_MIN
      omega
    rw [nextExpressionStackPositionTimes, ih _ hstep]
    simp only [VariableStackBindings.nextExpressionStackPositionWrapped,
      VariableStackBindings.currentExpressionStackPosition]
    rw [wrapInt_sub_wrapInt]
    congr 1
    push_cast
    ring

theorem currentExpressionStackPosition_times_reset {TypePtr : Type} (k : Nat)
    (e : VariableStackBindings TypePtr) :
    (nextExpressionStackPositionTimes k e.resetExpressionStack).currentExpressionStackPosition =
      wrapInt (-4 - 4 * k) := by
  rw [currentExpressionStackPosition_times k e.resetExpressionStack
    (show wrapInt (-4) = -4 by decide)]
  rfl

/-! ## The claims on `VariableStackBindings` -/

/-- C1, as stated, fails: on a fresh environment `insertBinding("x", t, 8)`
followed by `insertBinding("x", t, 12)` leaves `stackPosition("x")` at the old
offset `8`, not at the newest offset `12`. -/
theorem C1_second_insert_does_not_shadow :
    (((VariableStackBindings.new : VariableStackBindings Unit).insertBinding "x" () 8).insertBinding
        "x" () 12).stackPosition "x" = 8 ∧
    (((VariableStackBindings.new : VariableStackBindings Unit).insertBinding "x" () 8).insertBinding
        "x" () 12).stackPosition "x" ≠ 12 := by
  decide

/-- C1, amended: after `insertBinding(n, t1, p1)` followed by
`insertBinding(n, t2, p2)` on an environment `e`, the second call has changed
nothing, and `stackPosition(n)` is the offset of the first binding made for
`n`: the offset `e` already had for `n` when `n` was bound in `e`, and `p1`
otherwise (first inserted wins). -/
theorem C1_first_insert_wins {TypePtr : Type} (e : VariableStackBindings TypePtr) (n : String)
    (t1 t2 : TypePtr) (p1 p2 : Int) :
    (e.insertBinding n t1 p1).insertBinding n t2 p2 = e.insertBinding n t1 p1 ∧
    ((e.insertBinding n t1 p1).insertBinding n t2 p2).stackPosition n =
      (if e.bindingExists n = true then e.stackPosition n else p1) := by
  have h := VariableStackBindings.insertBinding_of_bound (e.insertBinding n t1 p1) n t2 p2
    (VariableStackBindings.bindingExists_insertBinding_self e n t1 p1)
  rw [h]
  exact ⟨rfl, VariableStackBindings.stackPosition_insertBinding_self e n t1 p1⟩

/-- C2: when `bindingExists(n)` is false in `e`, after `insertBinding(n, t, p)`
the lookup `stackPosition(n)` returns exactly `p` and `bindingExists(n)` returns
true. -/
theorem C2_insert_then_lookup {TypePtr : Type} (e : VariableStackBindings TypePtr) (n : String)
    (t : TypePtr) (p : Int) (h : e.bindingExists n = false) :
    (e.insertBinding n t p).stackPosition n = p ∧
    (e.insertBinding n t p).bindingExists n = true := by
  refine ⟨?_, VariableStackBindings.bindingExists_insertBinding_self e n t p⟩
  rw [VariableStackBindings.stackPosition_insertBinding_self, h]
  simp

/-- Witness of C2: the name `"a"`, unbound in an environment that binds `"b"`,
inserted at offset `-8`. -/
theorem C2_insert_then_lookup_witness :
    ((VariableStackBindings.new : VariableStackBindings Unit).insertBinding "b" () 4).bindingExists
        "a" = false ∧
    ((((VariableStackBindings.new : VariableStackBindings Unit).insertBinding "b" () 4).insertBinding
        "a" () (-8)).stackPosition "a" = -8 ∧
     (((VariableStackBindings.new : VariableStackBindings Unit).insertBinding "b" () 4).insertBinding
        "a" () (-8)).bindingExists "a" = true) :=
  ⟨by decide, C2_insert_then_lookup _ "a" () (-8) (by decide)⟩

/-- C3: for a name `n` with `bindingExists(n) = false`, `stackPosition(n)`
returns the fixed offset `0`; `stackPosition` is a total function into the
integers, it has no failing result. -/
theorem C3_unbound_lookup_is_zero {TypePtr : Type} (e : VariableStackBindings TypePtr)
    (n : String) (h : e.bindingExists n = false) : e.stackPosition n = 0 := by
  have hf := VariableStackBindings.find_eq_none_of_not_bound e n h
  simp [VariableStackBindings.stackPosition, hf]

/-- Witness of C3: the name `"y"` in an environment that binds only `"x"`. -/
theorem C3_unbound_lookup_is_zero_witness :
    ((VariableStackBindings.new : VariableStackBindings Unit).insertBinding "x" () 8).bindingExists
        "y" = false ∧
    ((VariableStackBindings.new : VariableStackBindings Unit).insertBinding "x" () 8).stackPosition
        "y" = 0 :=
  ⟨by decide, C3_unbound_lookup_is_zero _ "y" (by decide)⟩

/-- C4: after any finite sequence of `insertBinding`, `increaseStackPosition`,
`resetExpressionStack` and `nextExpressionStackPosition` calls on a freshly
constructed environment, `bindingExists(n)` is true if and only if the
sequence contains an `insertBinding` call whose id is `n`; and a name that is
bound stays bound whatever calls follow. -/
theorem C4_bindingExists_exact {TypePtr : Type} (ops : List (BindingsOp TypePtr)) (n : String) :
    ((BindingsOp.run VariableStackBindings.new ops).bindingExists n = true ↔
      ∃ id type stack_position,
        BindingsOp.insertBinding id type stack_position ∈ ops ∧ id = n) ∧
    (∀ more : List (BindingsOp TypePtr),
      (BindingsOp.run VariableStackBindings.new ops).bindingExists n = true →
      (BindingsOp.run VariableStackBindings.new (ops ++ more)).bindingExists n = true) := by
  have hany : ∀ l : List (BindingsOp TypePtr), l.any (BindingsOp.insertsName n) = true ↔
      ∃ id type stack_position, BindingsOp.insertBinding id type stack_position ∈ l ∧ id = n := by
    intro l
    rw [List.any_eq_true]
    constructor
    · rintro ⟨op, hmem, hop⟩
      cases op with
      | insertBinding id t p =>
        exact ⟨id, t, p, hmem, by simpa [BindingsOp.insertsName] using hop⟩
      | increaseStackPosition => simp [BindingsOp.insertsName] at hop
      | resetExpressionStack => simp [BindingsOp.insertsName] at hop
      | nextExpressionStackPosition => simp [BindingsOp.insertsName] at hop
    · rintro ⟨id, t, p, hmem, hid⟩
      exact ⟨_, hmem, by simp [BindingsOp.insertsName, hid]⟩
  constructor
  · rw [BindingsOp.bindingExists_run, ← hany]
    simp [VariableStackBindings.bindingExists, VariableStackBindings.new, StdMap.find]
  · intro more h
    rw [BindingsOp.run_append, BindingsOp.bindingExists_run, h]
    rfl

/-- C5: for names `n ≠ m`, `insertBinding(n, t, p)` leaves `stackPosition(m)`
and `bindingExists(m)` unchanged, and leaves `currentStackPosition()` and
`currentExpressionStackPosition()` unchanged. -/
theorem C5_insert_other_name_frame {TypePtr : Type} (e : VariableStackBindings TypePtr)
    (n m : String) (t : TypePtr) (p : Int) (hne : n ≠ m) :
    (e.insertBinding n t p).stackPosition m = e.stackPosition m ∧
    (e.insertBinding n t p).bindingExists m = e.bindingExists m ∧
    (e.insertBinding n t p).currentStackPosition = e.currentStackPosition ∧
    (e.insertBinding n t p).currentExpressionStackPosition = e.currentExpressionStackPosition := by
  have hf := VariableStackBindings.find_insertBinding_other e n m t p hne
  refine ⟨?_, ?_, rfl, rfl⟩
  · simp only [VariableStackBindings.stackPosition, hf]
  · simp only [VariableStackBindings.bindingExists, hf]

/-- Witness of C5: inserting `"n"` into an environment that binds `"m"` at
offset `8`. -/
theorem C5_insert_other_name_frame_witness :
    ("n" : String) ≠ "m" ∧
    ((((VariableStackBindings.new : VariableStackBindings Unit).insertBinding "m" () 8).insertBinding
        "n" () 12).stackPosition "m" =
      ((VariableStackBindings.new : VariableStackBindings Unit).insertBinding "m" () 8).stackPosition
        "m" ∧
     (((VariableStackBindings.new : VariableStackBindings Unit).insertBinding "m" () 8).insertBinding
        "n" () 12).bindingExists "m" =
      ((VariableStackBindings.new : VariableStackBindings Unit).insertBinding "m" () 8).bindingExists
        "m" ∧
     (((VariableStackBindings.new : VariableStackBindings Unit).insertBinding "m" () 8).insertBinding
        "n" () 12).currentStackPosition =
      ((VariableStackBindings.new : VariableStackBindings Unit).insertBinding "m" ()
        8).currentStackPosition ∧
     (((VariableStackBindings.new : VariableStackBindings Unit).insertBinding "m" () 8).insertBinding
        "n" () 12).currentExpressionStackPosition =
      ((VariableStackBindings.new : VariableStackBindings Unit).insertBinding "m" ()
        8).currentExpressionStackPosition) :=
  ⟨by decide, C5_insert_other_name_frame _ "n" "m" () 12 (by decide)⟩

/-- C6: `increaseStackPosition()` raises `currentStackPosition()` by exactly
`4`, and after any finite sequence of calls on a fresh environment
`currentStackPosition()` is `4 + 4k`, `k` the number of `increaseStackPosition`
calls in the sequence (over the mathematical integers). -/
theorem C6_increaseStackPosition_adds_four {TypePtr : Type} (e : VariableStackBindings TypePtr)
    (ops : List (BindingsOp TypePtr)) :
    e.increaseStackPosition.currentStackPosition = e.currentStackPosition + 4 ∧
    (BindingsOp.run VariableStackBindings.new ops).currentStackPosition =
      4 + 4 * ((ops.countP BindingsOp.isIncrease : Nat) : Int) := by
  refine ⟨rfl, ?_⟩
  rw [BindingsOp.currentStackPosition_run]
  rfl

/-- C7, as stated, fails where the `int` counter leaves its range: after
`resetExpressionStack()` and `536870912` calls of
`nextExpressionStackPosition()` on a fresh environment,
`currentExpressionStackPosition()` is `2147483644`, not
`-4 * (536870912 + 1) = -2147483652`, which is below `INT_MIN`. -/
theorem C7_reset_then_next_overflows :
    (nextExpressionStackPositionTimes 536870912
      (VariableStackBindings.new : VariableStackBindings Unit).resetExpressionStack
        ).currentExpressionStackPosition = 2147483644 ∧
    (nextExpressionStackPositionTimes 536870912
      (VariableStackBindings.new : VariableStackBindings Unit).resetExpressionStack
        ).currentExpressionStackPosition ≠ -4 * ((536870912 : Int) + 1) ∧
    -4 * ((536870912 : Int) + 1) < INT_MIN := by
  rw [currentExpressionStackPosition_times_reset]
  decide

/-- C7, amended: for every environment `e` (whatever its current temporary
counter) and every `k ≥ 0` for which `-4 * (k + 1)` is a value of `int`, that
is `4 * (k + 1) ≤ 2 ^ 31`, `resetExpressionStack()` followed by `k` calls of
`nextExpressionStackPosition()` yields `currentExpressionStackPosition() =
-4 * (k + 1)`; reset alone yields `-4`, the value of a fresh environment, and
reset is idempotent. -/
theorem C7_reset_discards_history {TypePtr : Type} (e : VariableStackBindings TypePtr) (k : Nat)
    (hk : 4 * ((k : Int) + 1) ≤ 2147483648) :
    (nextExpressionStackPositionTimes k e.resetExpressionStack).currentExpressionStackPosition =
      -4 * ((k : Int) + 1) ∧
    e.resetExpressionStack.currentExpressionStackPosition = -4 ∧
    e.resetExpressionStack.currentExpressionStackPosition =
      (VariableStackBindings.new : VariableStackBindings TypePtr).currentExpressionStackPosition ∧
    e.resetExpressionStack.resetExpressionStack = e.resetExpressionStack := by
  refine ⟨?_, rfl, rfl, rfl⟩
  rw [currentExpressionStackPosition_times_reset]
  unfold wrapInt INT_MIN
  omega

/-- Witness of C7: three calls after a reset, on an environment whose temporary
counter had gone down to `-12`. -/
theorem C7_reset_discards_history_witness :
    4 * (((3 : Nat) : Int) + 1) ≤ 2147483648 ∧
    (nextExpressionStackPositionTimes 3
      ((VariableStackBindings.new : VariableStackBindings
        Unit).nextExpressionStackPosition.nextExpressionStackPosition.resetExpressionStack)
        ).currentExpressionStackPosition = -16 :=
  ⟨by decide, (C7_reset_discards_history _ 3 (by decide)).1⟩

/-- C8: in every environment obtained from a freshly constructed one by a
finite sequence of `insertBinding`, `increaseStackPosition`,
`resetExpressionStack` and `nextExpressionStackPosition` calls,
`currentExpressionStackPosition()` is non-positive, at most `-4`, and a
multiple of `4` (over the mathematical integers). -/
theorem C8_expression_stack_invariant {TypePtr : Type} (ops : List (BindingsOp TypePtr)) :
    (BindingsOp.run VariableStackBindings.new ops).currentExpressionStackPosition ≤ 0 ∧
    (BindingsOp.run VariableStackBindings.new ops).currentExpressionStackPosition ≤ -4 ∧
    (4 : Int) ∣ (BindingsOp.run VariableStackBindings.new ops).currentExpressionStackPosition := by
  have h := BindingsOp.expressionStack_run (VariableStackBindings.new : VariableStackBindings TypePtr)
    ops ⟨le_refl _, ⟨-1, by norm_num [VariableStackBindings.new,
      VariableStackBindings.currentExpressionStackPosition]⟩⟩
  exact ⟨by omega, h.1, h.2⟩

/-- C9: `increaseStackPosition()` leaves `currentExpressionStackPosition()`
unchanged; `resetExpressionStack()` and `nextExpressionStackPosition()` leave
`currentStackPosition()` unchanged; and all three leave `stackPosition(n)` and
`bindingExists(n)` unchanged for every name `n`. -/
theorem C9_counters_independent {TypePtr : Type} (e : VariableStackBindings TypePtr) (n : String) :
    e.increaseStackPosition.currentExpressionStackPosition = e.currentExpressionStackPosition ∧
    e.resetExpressionStack.currentStackPosition = e.currentStackPosition ∧
    e.nextExpressionStackPosition.currentStackPosition = e.currentStackPosition ∧
    (e.increaseStackPosition.stackPosition n = e.stackPosition n ∧
      e.increaseStackPosition.bindingExists n = e.bindingExists n) ∧
    (e.resetExpressionStack.stackPosition n = e.stackPosition n ∧
      e.resetExpressionStack.bindingExists n = e.bindingExists n) ∧
    (e.nextExpressionStackPosition.stackPosition n = e.stackPosition n ∧
      e.nextExpressionStackPosition.bindingExists n = e.bindingExists n) :=
  ⟨rfl, rfl, rfl, ⟨rfl, rfl⟩, ⟨rfl, rfl⟩, ⟨rfl, rfl⟩⟩

/-! ## Lemmas on the label counter -/

theorem unsignedModulus_pos : 0 < unsignedModulus := by decide

theorem labelsFrom_zero (c : Nat) : labelsFrom c 0 = [] := rfl

theorem labelsFrom_add (c a b : Nat) :
    labelsFrom c (a + b) = labelsFrom c a ++ labelsFrom ((c + a) % unsignedModulus) b := by
  simp only [labelsFrom, List.range_add, List.map_append, List.map_map]
  congr 1
  apply List.map_congr_left
  intro i _
  simp [Function.comp, Nat.add_assoc]

theorem labelsFrom_one (c : Nat) (hc : c < unsignedModulus) : labelsFrom c 1 = [c] := by
  simp [labelsFrom, List.range_succ, Nat.mod_eq_of_lt hc]

/-- The labels around one allocation: those before it, the label allocated, and
those after it are the consecutive values of the counter. -/
theorem labelsFrom_allocate (c a b : Nat) :
    labelsFrom c a ++ (c + a) % unsignedModulus ::
        labelsFrom (((c + a) % unsignedModulus + 1) % unsignedModulus) b =
      labelsFrom c (a + 1 + b) := by
  have h1 : (c + a) % unsignedModulus < unsignedModulus := Nat.mod_lt _ unsignedModulus_pos
  rw [Nat.add_assoc, labelsFrom_add c a (1 + b), labelsFrom_add _ 1 b, labelsFrom_one _ h1]
  rfl

theorem counter_add (c a b : Nat) :
    ((c + a) % unsignedModulus + b) % unsignedModulus = (c + (a + b)) % unsignedModulus := by
  rw [Nat.mod_add_mod, Nat.add_assoc]

theorem counter_allocate (c a b : Nat) :
    (((c + a) % unsignedModulus + 1) % unsignedModulus + b) % unsignedModulus =
      (c + (a + 1 + b)) % unsignedModulus := by
  rw [Nat.mod_add_mod, Nat.add_assoc _ 1 b, Nat.mod_add_mod]
  congr 1
  omega

theorem passFrom_leaf {TypePtr : Type} (b : VariableStackBindings TypePtr) (c : Nat)
    (hc : c < unsignedModulus) : PassFrom (⟨b, c, []⟩ : PrintAsmResult TypePtr) c 0 :=
  ⟨(Nat.mod_eq_of_lt hc).symm, rfl⟩

theorem passFrom_lt {TypePtr : Type} {r : PrintAsmResult TypePtr} {c n : Nat}
    (h : PassFrom r c n) : r.label_count < unsignedModulus := by
  rw [h.1]
  exact Nat.mod_lt _ unsignedModulus_pos

/-- Two passes one after the other. -/
theorem passFrom_seq {TypePtr : Type} {l r : PrintAsmResult TypePtr} {c a b : Nat}
    (b0 : VariableStackBindings TypePtr)
    (hl : PassFrom l c a) (hr : PassFrom r l.label_count b) :
    PassFrom (⟨b0, r.label_count, l.labels ++ r.labels⟩ : PrintAsmResult TypePtr) c (a + b) := by
  obtain ⟨hl1, hl2⟩ := hl
  obtain ⟨hr1, hr2⟩ := hr
  refine ⟨?_, ?_⟩
  · show r.label_count = _
    rw [hr1, hl1, counter_add]
  · show l.labels ++ r.labels = _
    rw [hl2, hr2, hl1, labelsFrom_add]

/-- A pass, the allocation of one label, and a second pass. -/
theorem passFrom_allocate {TypePtr : Type} {l r : PrintAsmResult TypePtr} {c a b : Nat}
    (b0 : VariableStackBindings TypePtr)
    (hl : PassFrom l c a) (hr : PassFrom r ((l.label_count + 1) % unsignedModulus) b) :
    PassFrom (⟨b0, r.label_count, l.labels ++ l.label_count :: r.labels⟩ : PrintAsmResult TypePtr)
      c (a + 1 + b) := by
  obtain ⟨hl1, hl2⟩ := hl
  obtain ⟨hr1, hr2⟩ := hr
  refine ⟨?_, ?_⟩
  · show r.label_count = _
    rw [hr1, hl1, counter_allocate]
  · show l.labels ++ l.label_count :: r.labels = _
    rw [hl2, hr2, hl1, labelsFrom_allocate]

theorem succ_lt_unsignedModulus (x : Nat) : (x + 1) % unsignedModulus < unsignedModulus :=
  Nat.mod_lt _ unsignedModulus_pos

mutual
theorem Expression.printAsm_passFrom {TypePtr : Type} :
    ∀ (e : Expression TypePtr) (b : VariableStackBindings TypePtr) (c : Nat),
      c < unsignedModulus → PassFrom (e.printAsm b c) c e.branchConstructs
  | .mk derived _, b, c, hc => by
    simpa [Expression.printAsm, Expression.branchConstructs] using
      ExpressionKind.printAsmKind_passFrom derived b c hc
theorem ExpressionKind.printAsmKind_passFrom {TypePtr : Type} :
    ∀ (e : ExpressionKind TypePtr) (b : VariableStackBindings TypePtr) (c : Nat),
      c < unsignedModulus → PassFrom (e.printAsm b c) c e.branchConstructs
  | .PostfixExpression, b, c, hc => passFrom_leaf b c hc
  | .PostfixArrayElement, b, c, hc => passFrom_leaf b c hc
  | .PostfixFunctionCall f args, b, c, hc => by
    have hf := Expression.printAsm_passFrom f b c hc
    exact passFrom_seq b hf (ExpressionPtr.printAsmArguments_pass args b _ (passFrom_lt hf))
  | .UnaryExpression, b, c, hc => passFrom_leaf b c hc
  | .CastExpression _ x, b, c, hc => by
    have h := Expression.printAsm_passFrom x b c hc
    exact ⟨h.1, h.2⟩
  | .AdditiveExpression l _ r, b, c, hc => by
    have hl := Expression.printAsm_passFrom l b c hc
    exact passFrom_seq b hl (Expression.printAsm_passFrom r b _ (passFrom_lt hl))
  | .MultiplicativeExpression l _ r, b, c, hc => by
    have hl := Expression.printAsm_passFrom l b c hc
    exact passFrom_seq b hl (Expression.printAsm_passFrom r b _ (passFrom_lt hl))
  | .ShiftExpression l r, b, c, hc => by
    have hl := Expression.printAsm_passFrom l b c hc
    exact passFrom_seq b hl (Expression.printAsm_passFrom r b _ (passFrom_lt hl))
  | .RelationalExpression l r, b, c, hc => by
    have hl := Expression.printAsm_passFrom l b c hc
    exact passFrom_seq b hl (Expression.printAsm_passFrom r b _ (passFrom_lt hl))
  | .EqualityExpression l _ r, b, c, hc => by
    have hl := Expression.printAsm_passFrom l b c hc
    exact passFrom_seq b hl (Expression.printAsm_passFrom r b _ (passFrom_lt hl))
  | .AndExpression l r, b, c, hc => by
    have hl := Expression.printAsm_passFrom l b c hc
    exact passFrom_seq b hl (Expression.printAsm_passFrom r b _ (passFrom_lt hl))
  | .ExclusiveOrExpression l r, b, c, hc => by
    have hl := Expression.printAsm_passFrom l b c hc
    exact passFrom_seq b hl (Expression.printAsm_passFrom r b _ (passFrom_lt hl))
  | .InclusiveOrExpression l r, b, c, hc => by
    have hl := Expression.printAsm_passFrom l b c hc
    exact passFrom_seq b hl (Expression.printAsm_passFrom r b _ (passFrom_lt hl))
  | .LogicalAndExpression l r, b, c, hc => by
    have hl := Expression.printAsm_passFrom l b c hc
    exact passFrom_allocate b hl (Expression.printAsm_passFrom r b _ (succ_lt_unsignedModulus _))
  | .LogicalOrExpression l r, b, c, hc => by
    have hl := Expression.printAsm_passFrom l b c hc
    exact passFrom_allocate b hl (Expression.printAsm_passFrom r b _ (succ_lt_unsignedModulus _))
  | .ConditionalExpression x t f, b, c, hc => by
    have hx := Expression.printAsm_passFrom x b c hc
    have ht := Expression.printAsm_passFrom t b _ (succ_lt_unsignedModulus (x.printAsm b c).label_count)
    have hf := Expression.printAsm_passFrom f b _ (passFrom_lt ht)
    exact passFrom_allocate b hx (passFrom_seq b ht hf)
  | .AssignmentExpression l r, b, c, hc => by
    have hl := Expression.printAsm_passFrom l b c hc
    exact passFrom_seq b hl (Expression.printAsm_passFrom r b _ (passFrom_lt hl))
  | .Identifier _, b, c, hc => passFrom_leaf b c hc
  | .Constant _, b, c, hc => passFrom_leaf b c hc
theorem ExpressionPtr.printAsmArguments_pass {TypePtr : Type} :
    ∀ (p : ExpressionPtr TypePtr) (b : VariableStackBindings TypePtr) (c : Nat),
      c < unsignedModulus → PassFrom (p.printAsmArguments b c) c p.branchConstructs
  | .nullptr, b, c, hc => passFrom_leaf b c hc
  | .ptr (.mk derived next), b, c, hc => by
    have ha := ExpressionKind.printAsmKind_passFrom derived b c hc
    exact passFrom_seq b ha (ExpressionPtr.printAsmArguments_pass next b _ (passFrom_lt ha))
end

/-! ## The claim on the label counter -/

theorem nextExpression_linkExpression {TypePtr : Type} (e : Expression TypePtr)
    (next_expression : ExpressionPtr TypePtr) :
    (e.linkExpression next_expression).nextExpression = next_expression := by
  cases e
  rfl

/-- One step of the walk, through `nextExpression()`. -/
theorem countArgumentsFrom_ptr {TypePtr : Type} (e : Expression TypePtr) (argument_count : Nat) :
    countArgumentsFrom (.ptr e) argument_count =
      countArgumentsFrom e.nextExpression ((argument_count + 1) % unsignedModulus) := by
  cases e
  rfl

/-- The walk over a linked list of arguments adds its length to the count,
modulo `unsignedModulus`. -/
theorem countArgumentsFrom_linkArguments {TypePtr : Type} (arguments : List (Expression TypePtr))
    (argument_count : Nat) (hc : argument_count < unsignedModulus) :
    countArgumentsFrom (linkArguments arguments) argument_count =
      (argument_count + arguments.length) % unsignedModulus := by
  induction arguments generalizing argument_count with
  | nil => simp [linkArguments, countArgumentsFrom, Nat.mod_eq_of_lt hc]
  | cons a rest ih =>
    rw [linkArguments, countArgumentsFrom_ptr, nextExpression_linkExpression,
      ih _ (Nat.mod_lt _ unsignedModulus_pos), Nat.mod_add_mod, List.length_cons]
    congr 1
    omega

theorem countArguments_linkArguments {TypePtr : Type} (postfix_expression_ : Expression TypePtr)
    (arguments : List (Expression TypePtr)) :
    PostfixFunctionCall.countArguments postfix_expression_ (linkArguments arguments) =
      arguments.length % unsignedModulus := by
  unfold PostfixFunctionCall.countArguments
  rw [countArgumentsFrom_linkArguments arguments 0 unsignedModulus_pos, Nat.zero_add]

/-- C11: for every `PostfixFunctionCall` whose argument list is a chain of `k`
expressions linked through `linkExpression` / `nextExpression`, each argument
of any class (a nested call with its own arguments included), `countArguments`
yields exactly `k`, the number of top-level arguments. The count `k` is a
value of the `unsigned` result, `k < 2 ^ 32`. -/
theorem C11_countArguments {TypePtr : Type} (postfix_expression_ : Expression TypePtr)
    (arguments : List (Expression TypePtr)) (hk : arguments.length < unsignedModulus) :
    PostfixFunctionCall.countArguments postfix_expression_ (linkArguments arguments) =
      arguments.length := by
  rw [countArguments_linkArguments, Nat.mod_eq_of_lt hk]

/-- Witness of C11: the call `f(a, g(x, y), c)`, whose second argument is a
call with two arguments of its own, has the count `3`. -/
theorem C11_countArguments_witness :
    ([Expression.mk (.Identifier "a") .nullptr,
      Expression.mk (.PostfixFunctionCall (.mk (.Identifier "g") .nullptr)
        (linkArguments [Expression.mk (.Identifier "x") .nullptr,
          Expression.mk (.Identifier "y") .nullptr])) .nullptr,
      Expression.mk (.Identifier "c") .nullptr] : List (Expression Unit)).length
        < unsignedModulus ∧
    PostfixFunctionCall.countArguments (Expression.mk (.Identifier "f") .nullptr)
      (linkArguments ([Expression.mk (.Identifier "a") .nullptr,
        Expression.mk (.PostfixFunctionCall (.mk (.Identifier "g") .nullptr)
          (linkArguments [Expression.mk (.Identifier "x") .nullptr,
            Expression.mk (.Identifier "y") .nullptr])) .nullptr,
        Expression.mk (.Identifier "c") .nullptr] : List (Expression Unit))) = 3 :=
  ⟨by decide, C11_countArguments _ _ (by decide)⟩

/-! ## The claims on the sentinel of `stackPosition` and on the fresh environment -/

/-- C12: for every environment `e` and name `n`, if `stackPosition(n)` is not
`0` then `bindingExists(n)` is true. -/
theorem C12_nonzero_lookup_is_bound {TypePtr : Type} (e : VariableStackBindings TypePtr)
    (n : String) (h : e.stackPosition n ≠ 0) : e.bindingExists n = true := by
  cases hb : e.bindingExists n with
  | true => rfl
  | false =>
    have hf := VariableStackBindings.find_eq_none_of_not_bound e n hb
    simp [VariableStackBindings.stackPosition, hf] at h

/-- Witness of C12: the name `"x"` bound at offset `8`. -/
theorem C12_nonzero_lookup_is_bound_witness :
    ((VariableStackBindings.new : VariableStackBindings Unit).insertBinding "x" () 8).stackPosition
        "x" ≠ 0 ∧
    ((VariableStackBindings.new : VariableStackBindings Unit).insertBinding "x" () 8).bindingExists
        "x" = true :=
  ⟨by decide, C12_nonzero_lookup_is_bound _ "x" (by decide)⟩

/-- C13: there are an environment reached from a fresh one by calls of the
mutating methods and a name `n` with `bindingExists(n)` true and
`stackPosition(n) = 0`, while in the fresh environment the same name is
unbound and `stackPosition(n)` is `0` too: the result of `stackPosition` alone
does not tell an unbound name from a name bound at offset `0`. -/
theorem C13_sentinel_ambiguous {TypePtr : Type} (type : TypePtr) :
    ∃ (ops : List (BindingsOp TypePtr)) (n : String),
      (BindingsOp.run VariableStackBindings.new ops).bindingExists n = true ∧
      (BindingsOp.run VariableStackBindings.new ops).stackPosition n = 0 ∧
      (VariableStackBindings.new : VariableStackBindings TypePtr).bindingExists n = false ∧
      (VariableStackBindings.new : VariableStackBindings TypePtr).stackPosition n =
        (BindingsOp.run VariableStackBindings.new ops).stackPosition n := by
  refine ⟨[BindingsOp.insertBinding "x" type 0], "x", ?_, ?_, ?_, ?_⟩ <;>
    simp [BindingsOp.run, BindingsOp.apply, VariableStackBindings.new,
      VariableStackBindings.insertBinding, VariableStackBindings.bindingExists,
      VariableStackBindings.stackPosition, StdMap.insert, StdMap.find]

/-- C14: a freshly constructed environment has `currentStackPosition() = 4` and
`currentExpressionStackPosition() = -4`, and for every name `n`
`bindingExists(n)` is false and `stackPosition(n) = 0`. -/
theorem C14_fresh_environment {TypePtr : Type} (n : String) :
    (VariableStackBindings.new : VariableStackBindings TypePtr).currentStackPosition = 4 ∧
    (VariableStackBindings.new : VariableStackBindings TypePtr).currentExpressionStackPosition
      = -4 ∧
    (VariableStackBindings.new : VariableStackBindings TypePtr).bindingExists n = false ∧
    (VariableStackBindings.new : VariableStackBindings TypePtr).stackPosition n = 0 :=
  ⟨rfl, rfl, rfl, rfl⟩
